import Mathlib

/-!
Verification of the `ghc` organization registry and clone routing pipeline.

This file gives a shallow embedding of the Go sources of `haukened/ghc`:
the domain model (`internal/domain/config.go`), the clone URL parser
(`internal/clone/clone.go`) and the SSH config emitter
(`internal/sshconfig/sshconfig.go`), together with theorems about the
registry invariants, the removal protocol, organization validation, URL
parsing and SSH config rendering.

Go slices of pointers are modelled as Lean lists of records; in-place
mutation becomes a function from the old list to the new one.  Filesystem
effects (`os.Stat`) are modelled by passing the observed stat outcome as
an explicit argument.  Strings manipulated structurally (URLs, rendered
config text) are modelled as lists of characters.
-/

namespace Ghc

/-- Embedding of `domain.Organization` (config.go): a named binding of an
organization to an SSH key path, with a default flag. -/
structure Organization where
  name : String
  sshKeyPath : String
  isDefault : Bool
deriving DecidableEq, Repr

/-- Embedding of the `domain` package error values (errors.go) that the
modelled operations can return.  `organizationNotFound` carries the name it
was wrapped with (`fmt.Errorf("%w: %s", ErrOrganizationNotFound, name)`);
`insecureKeyPermissions` models the error wrapping `os.ErrPermission` with
the path and observed mode; `keyFileNotFound` models the error wrapping
`os.ErrNotExist` with the path. -/
inductive DomainError where
  | organizationNotFound (name : String)
  | cantRemoveDefault
  | emptyOrganizationName
  | invalidOrgName
  | emptySSHKeyPath
  | insecureKeyPermissions (path : String) (perm : Nat)
  | keyFileNotFound (path : String)
deriving DecidableEq, Repr

/-- The first phase of `Config.SetOrganization` (config.go lines 74-82):
when the incoming `isDefault` flag is true, every organization's
`IsDefault` field is set to false. -/
def clearDefaults (orgs : List Organization) : List Organization :=
  orgs.map fun o => { o with isDefault := false }

/-- The second phase of `Config.SetOrganization` (config.go lines 85-104):
walk the slice; the first entry whose name matches is overwritten in place
(new key path and flag) and the walk stops; if no entry matches, a new
entry is appended at the end. -/
def updateOrAppend (orgs : List Organization) (name key : String) (d : Bool) :
    List Organization :=
  match orgs with
  | [] => [⟨name, key, d⟩]
  | o :: rest =>
    if o.name = name then { o with sshKeyPath := key, isDefault := d } :: rest
    else o :: updateOrAppend rest name key d

/-- The final phase of `Config.SetOrganization` (config.go lines 107-109):
if the registry now holds exactly one entry, that entry's `IsDefault` is
forced true regardless of the flag. -/
def forceSingleDefault (orgs : List Organization) : List Organization :=
  match orgs with
  | [o] => [{ o with isDefault := true }]
  | other => other

/-- Embedding of `Config.SetOrganization` (config.go lines 72-112).  The
Go method mutates `c.Organizations` and returns an `error`; here it maps
the old list to the new list paired with the returned error.  The Go body
has a single `return nil`, so the error component is always `none`. -/
def setOrganization (orgs : List Organization) (name key : String) (d : Bool) :
    List Organization × Option DomainError :=
  let cleared := if d then clearDefaults orgs else orgs
  let updated := updateOrAppend cleared name key d
  (forceSingleDefault updated, none)

/-- Searches the slice for the first entry with the given name, as the loop
in `Config.RemoveOrganization` (config.go lines 32-38) does, and returns
that entry together with the list with it deleted (the order of the other
entries is untouched, matching the `append(s[:i], s[i+1:]...)` idiom). -/
def removeFirst (orgs : List Organization) (name : String) :
    Option (Organization × List Organization) :=
  match orgs with
  | [] => none
  | o :: rest =>
    if o.name = name then some (o, rest)
    else
      match removeFirst rest name with
      | none => none
      | some (m, rest') => some (m, o :: rest')

/-- Embedding of `Config.RemoveOrganization` (config.go lines 29-54): if no
entry matches the name the registry is unchanged and
`ErrOrganizationNotFound` (wrapping the name) is returned; if the matched
entry is the default and the registry holds more than one entry the
registry is unchanged and `ErrCantRemoveDefault` is returned; otherwise the
matched entry is deleted. -/
def removeOrganization (orgs : List Organization) (name : String) :
    List Organization × Option DomainError :=
  match removeFirst orgs name with
  | none => (orgs, some (DomainError.organizationNotFound name))
  | some (m, rest) =>
    if m.isDefault = true ∧ 1 < orgs.length then
      (orgs, some DomainError.cantRemoveDefault)
    else (rest, none)

/-- Number of entries whose `IsDefault` flag is set. -/
def defaultCount (orgs : List Organization) : Nat :=
  orgs.countP fun o => o.isDefault

/-- The registries reachable from the empty registry by a sequence of
`SetOrganization` calls. -/
inductive Reachable : List Organization → Prop where
  | empty : Reachable []
  | step (orgs : List Organization) (name key : String) (d : Bool) :
      Reachable orgs → Reachable (setOrganization orgs name key d).1

theorem defaultCount_clearDefaults (orgs : List Organization) :
    defaultCount (clearDefaults orgs) = 0 := by
  induction orgs with
  | nil => rfl
  | cons o rest ih =>
    simp only [clearDefaults, List.map_cons, defaultCount, List.countP_cons] at *
    simp [ih]

theorem defaultCount_updateOrAppend_true (orgs : List Organization)
    (name key : String) :
    defaultCount (updateOrAppend orgs name key true) ≤ defaultCount orgs + 1 := by
  induction orgs with
  | nil => simp [updateOrAppend, defaultCount]
  | cons o rest ih =>
    by_cases h : o.name = name
    · simp [updateOrAppend, if_pos h, defaultCount, List.countP_cons]
    · simp only [updateOrAppend, if_neg h]
      simp only [defaultCount, List.countP_cons] at *
      omega

theorem defaultCount_updateOrAppend_false (orgs : List Organization)
    (name key : String) :
    defaultCount (updateOrAppend orgs name key false) ≤ defaultCount orgs := by
  induction orgs with
  | nil => simp [updateOrAppend, defaultCount]
  | cons o rest ih =>
    by_cases h : o.name = name
    · simp [updateOrAppend, if_pos h, defaultCount, List.countP_cons]
    · simp only [updateOrAppend, if_neg h]
      simp only [defaultCount, List.countP_cons] at *
      omega

/-- The state invariant maintained by `SetOrganization`: at most one
default entry, and a singleton registry has its entry marked default. -/
def RegistryInv (orgs : List Organization) : Prop :=
  defaultCount orgs ≤ 1 ∧ (orgs.length = 1 → defaultCount orgs = 1)

theorem registryInv_set (orgs : List Organization) (name key : String)
    (d : Bool) (h : RegistryInv orgs) :
    RegistryInv (setOrganization orgs name key d).1 := by
  have hcount : defaultCount (updateOrAppend (if d then clearDefaults orgs else orgs)
      name key d) ≤ 1 := by
    cases d with
    | true =>
      have h1 := defaultCount_updateOrAppend_true (clearDefaults orgs) name key
      rw [defaultCount_clearDefaults] at h1
      simpa using h1
    | false =>
      have h1 := defaultCount_updateOrAppend_false orgs name key
      exact le_trans (by simpa using h1) h.1
  simp only [setOrganization]
  generalize updateOrAppend (if d then clearDefaults orgs else orgs) name key d
      = mid at hcount
  match mid with
  | [] => exact ⟨by simpa [forceSingleDefault] using hcount, by simp [forceSingleDefault]⟩
  | [o] =>
    constructor
    · simp [forceSingleDefault, defaultCount, List.countP_cons]
    · intro _
      simp [forceSingleDefault, defaultCount, List.countP_cons]
  | a :: b :: rest =>
    constructor
    · simpa [forceSingleDefault] using hcount
    · intro hlen
      simp [forceSingleDefault, List.length_cons] at hlen

theorem registryInv_reachable (orgs : List Organization)
    (h : Reachable orgs) : RegistryInv orgs := by
  induction h with
  | empty => exact ⟨by simp [defaultCount], by simp⟩
  | step orgs name key d _ ih => exact registryInv_set orgs name key d ih

theorem forceSingleDefault_singleton (l : List Organization) (o : Organization)
    (h : forceSingleDefault l = [o]) : o.isDefault = true := by
  match l with
  | [] => simp [forceSingleDefault] at h
  | [a] =>
    simp only [forceSingleDefault] at h
    have := List.head_eq_of_cons_eq h
    simp [← this]
  | a :: b :: t => simp [forceSingleDefault] at h

/-- Claim C1: for every sequence of `SetOrganization` calls applied to an
initially empty registry, at most one organization has `IsDefault = true`
whenever the registry holds more than one entry. -/
theorem setOrganization_at_most_one_default (orgs : List Organization)
    (h : Reachable orgs) (_hlen : 1 < orgs.length) : defaultCount orgs ≤ 1 :=
  (registryInv_reachable orgs h).1

theorem setOrganization_at_most_one_default_witness :
    defaultCount (setOrganization (setOrganization [] "acme" "ka" true).1
      "widgets" "kb" false).1 ≤ 1 :=
  setOrganization_at_most_one_default _
    (Reachable.step _ "widgets" "kb" false
      (Reachable.step _ "acme" "ka" true Reachable.empty))
    (by decide)

/-- Claim C2 counterexample: the registry
`[acme (not default), widgets (not default)]` is reachable from the empty
registry by three `SetOrganization` calls (set acme as default, add widgets,
then update acme with the flag false), is non-empty, and has zero defaults,
so a non-empty reachable registry does not always hold exactly one
default. -/
theorem setOrganization_zero_defaults_counterexample :
    Reachable [⟨"acme", "ka2", false⟩, ⟨"widgets", "kb", false⟩] ∧
    defaultCount [⟨"acme", "ka2", false⟩, ⟨"widgets", "kb", false⟩] = 0 := by
  constructor
  · have h := Reachable.step
      ((setOrganization (setOrganization [] "acme" "ka" true).1 "widgets" "kb" false).1)
      "acme" "ka2" false
      (Reachable.step _ "widgets" "kb" false
        (Reachable.step _ "acme" "ka" true Reachable.empty))
    have e : (setOrganization (setOrganization (setOrganization [] "acme" "ka" true).1
        "widgets" "kb" false).1 "acme" "ka2" false).1
        = [⟨"acme", "ka2", false⟩, ⟨"widgets", "kb", false⟩] := by decide
    exact e ▸ h
  · decide

/-- Claim C2 (amended): for every registry reachable from the empty
registry by `SetOrganization` calls, at most one organization has
`IsDefault = true`, and a registry holding exactly one entry has that entry
marked default; a multi-entry reachable registry may however hold zero
defaults (see the counterexample), so "exactly one" does not hold in
general. -/
theorem setOrganization_reachable_default_invariant (orgs : List Organization)
    (h : Reachable orgs) :
    defaultCount orgs ≤ 1 ∧ (orgs.length = 1 → defaultCount orgs = 1) :=
  registryInv_reachable orgs h

theorem setOrganization_reachable_default_invariant_witness :
    defaultCount (setOrganization [] "acme" "ka" false).1 ≤ 1 ∧
    defaultCount (setOrganization [] "acme" "ka" false).1 = 1 :=
  ⟨(setOrganization_reachable_default_invariant _
      (Reachable.step _ "acme" "ka" false Reachable.empty)).1,
   (setOrganization_reachable_default_invariant _
      (Reachable.step _ "acme" "ka" false Reachable.empty)).2 (by decide)⟩

/-- Claim C3: for every name, key path and flag, `SetOrganization` on a
registry that afterwards contains exactly one entry leaves that entry with
`IsDefault = true`, regardless of the flag passed; and `SetOrganization`
returns no error on every call. -/
theorem setOrganization_single_entry_default (orgs : List Organization)
    (name key : String) (d : Bool) (o : Organization) :
    (setOrganization orgs name key d).2 = none ∧
    ((setOrganization orgs name key d).1 = [o] → o.isDefault = true) :=
  ⟨rfl, fun h => forceSingleDefault_singleton _ o h⟩

theorem setOrganization_single_entry_default_witness :
    (setOrganization [] "acme" "ka" false).2 = none ∧
    Organization.isDefault ⟨"acme", "ka", true⟩ = true :=
  ⟨(setOrganization_single_entry_default [] "acme" "ka" false
      ⟨"acme", "ka", true⟩).1,
   (setOrganization_single_entry_default [] "acme" "ka" false
      ⟨"acme", "ka", true⟩).2 (by decide)⟩

theorem removeFirst_eq_none (orgs : List Organization) (name : String) :
    removeFirst orgs name = none ↔ ∀ o ∈ orgs, o.name ≠ name := by
  induction orgs with
  | nil => simp [removeFirst]
  | cons o rest ih =>
    by_cases h : o.name = name
    · simp [removeFirst, h]
    · cases hr : removeFirst rest name with
      | none =>
        simp only [removeFirst, if_neg h, hr, List.mem_cons]
        constructor
        · intro _ x hx
          rcases hx with hx | hx
          · exact hx ▸ h
          · exact (ih.mp hr) x hx
        · intro _
          trivial
      | some p =>
        obtain ⟨m, r⟩ := p
        simp only [removeFirst, if_neg h, hr]
        constructor
        · intro hcontra
          exact absurd hcontra (by simp)
        · intro hall
          have : removeFirst rest name = none :=
            ih.mpr fun x hx => hall x (List.mem_cons_of_mem _ hx)
          rw [this] at hr
          exact absurd hr (by simp)

theorem removeFirst_append (pre post : List Organization) (m : Organization)
    (name : String) (hpre : ∀ o ∈ pre, o.name ≠ name) (hm : m.name = name) :
    removeFirst (pre ++ m :: post) name = some (m, pre ++ post) := by
  induction pre with
  | nil => simp [removeFirst, hm]
  | cons o rest ih =>
    have ho : o.name ≠ name := hpre o (by simp)
    simp only [List.cons_append, removeFirst, if_neg ho]
    rw [List.append_eq, ih fun x hx => hpre x (List.mem_cons_of_mem _ hx)]

/-- Claim C4: `RemoveOrganization` fails with `OrganizationNotFound` when no
entry has the given name; for the first entry matching the name, it fails
with `CannotRemoveDefault` exactly when that entry is the default and the
registry holds more than one entry (so removing the sole remaining entry
succeeds even if it is the default), and otherwise deletes the matched
entry, preserving the relative order of the remaining entries. -/
theorem removeOrganization_spec (orgs : List Organization) (name : String) :
    ((∀ o ∈ orgs, o.name ≠ name) →
      removeOrganization orgs name
        = (orgs, some (DomainError.organizationNotFound name)))
    ∧ (∀ pre m post, orgs = pre ++ m :: post → (∀ o ∈ pre, o.name ≠ name) →
        m.name = name →
        removeOrganization orgs name =
          if m.isDefault = true ∧ 1 < orgs.length then
            (orgs, some DomainError.cantRemoveDefault)
          else (pre ++ post, none)) := by
  constructor
  · intro hall
    simp [removeOrganization, (removeFirst_eq_none orgs name).mpr hall]
  · intro pre m post heq hpre hm
    subst heq
    simp only [removeOrganization, removeFirst_append pre post m name hpre hm]

theorem removeOrganization_spec_witness :
    removeOrganization [⟨"org1", "keyA", true⟩, ⟨"org2", "keyB", false⟩] "org1"
      = ([⟨"org1", "keyA", true⟩, ⟨"org2", "keyB", false⟩],
         some DomainError.cantRemoveDefault)
    ∧ removeOrganization [⟨"org1", "keyA", true⟩] "org1" = ([], none) :=
  ⟨((removeOrganization_spec [⟨"org1", "keyA", true⟩, ⟨"org2", "keyB", false⟩]
      "org1").2 [] ⟨"org1", "keyA", true⟩ [⟨"org2", "keyB", false⟩]
      rfl (by decide) rfl).trans (by decide),
   ((removeOrganization_spec [⟨"org1", "keyA", true⟩] "org1").2
      [] ⟨"org1", "keyA", true⟩ [] rfl (by decide) rfl).trans (by decide)⟩

/-- Claim C10: whenever `RemoveOrganization` returns an error, the
registry's organization list is left completely unchanged. -/
theorem removeOrganization_error_unchanged (orgs : List Organization)
    (name : String) (e : DomainError)
    (h : (removeOrganization orgs name).2 = some e) :
    (removeOrganization orgs name).1 = orgs := by
  simp only [removeOrganization] at h ⊢
  cases hr : removeFirst orgs name with
  | none => rfl
  | some p =>
    obtain ⟨m, rest⟩ := p
    rw [hr] at h
    replace h : (if m.isDefault = true ∧ 1 < orgs.length then
        ((orgs, some DomainError.cantRemoveDefault) :
          List Organization × Option DomainError)
      else (rest, none)).2 = some e := h
    show (if m.isDefault = true ∧ 1 < orgs.length then
        ((orgs, some DomainError.cantRemoveDefault) :
          List Organization × Option DomainError)
      else (rest, none)).1 = orgs
    by_cases hc : m.isDefault = true ∧ 1 < orgs.length
    · rw [if_pos hc]
    · rw [if_neg hc] at h
      exact absurd h (by simp)

theorem removeOrganization_error_unchanged_witness :
    (removeOrganization [⟨"org1", "keyA", true⟩, ⟨"org2", "keyB", false⟩]
      "org3").1 = [⟨"org1", "keyA", true⟩, ⟨"org2", "keyB", false⟩] :=
  removeOrganization_error_unchanged _ "org3"
    (DomainError.organizationNotFound "org3") (by decide)

/-- The character class `[a-z0-9]` of the organization name pattern in
`Organization.Validate` (config.go line 162). -/
def isLowerAlnum (c : Char) : Bool :=
  ('a' ≤ c && c ≤ 'z') || ('0' ≤ c && c ≤ '9')

/-- The character class `[a-z0-9\-]` of the organization name pattern. -/
def isSlugChar (c : Char) : Bool :=
  isLowerAlnum c || c = '-'

/-- Embedding of the anchored Go regular expression
`^[a-z0-9](?:[a-z0-9\-]{0,37}[a-z0-9])?$` used by `Organization.Validate`:
the name is either a single character in `[a-z0-9]`, or a first character
in `[a-z0-9]` followed by at most 37 characters in `[a-z0-9-]` and a last
character in `[a-z0-9]`. -/
def validOrgName (s : String) : Bool :=
  match s.toList with
  | [] => false
  | [c] => isLowerAlnum c
  | c :: cs =>
    isLowerAlnum c && cs.length ≤ 38 && cs.dropLast.all isSlugChar &&
      isLowerAlnum (cs.getLastD ' ')

/-- The observable outcome of the `os.Stat` call in `Organization.Validate`
(config.go line 173): the file was found with some permission bits
(`Mode().Perm()`), or `stat` failed and `os.IsNotExist` classified the
error as not-found, or `stat` failed with any other error. -/
inductive StatResult where
  | found (perm : Nat)
  | notExist
  | otherError
deriving DecidableEq, Repr

/-- Embedding of the key-file check of `Organization.Validate` (config.go
lines 173-180): on a successful stat, a permission mode other than 0600
yields the error wrapping `os.ErrPermission`; a not-found stat failure
yields the error wrapping `os.ErrNotExist`; any other stat failure falls
through both branches and the function continues to `return nil`. -/
def statCheck (path : String) (st : StatResult) : Option DomainError :=
  match st with
  | StatResult.found perm =>
    if perm ≠ 0o600 then some (DomainError.insecureKeyPermissions path perm)
    else none
  | StatResult.notExist => some (DomainError.keyFileNotFound path)
  | StatResult.otherError => none

/-- Embedding of `Organization.Validate` (config.go lines 156-183), with
the filesystem interaction abstracted into the `StatResult` argument. -/
def validateOrganization (o : Organization) (st : StatResult) :
    Option DomainError :=
  if o.name = "" then some DomainError.emptyOrganizationName
  else if o.name ≠ "default" ∧ validOrgName o.name = false then
    some DomainError.invalidOrgName
  else if o.sshKeyPath = "" then some DomainError.emptySSHKeyPath
  else statCheck o.sshKeyPath st

theorem validateOrganization_reduces (o : Organization) (st : StatResult)
    (hne : o.name ≠ "")
    (hname : o.name = "default" ∨ validOrgName o.name = true)
    (hkey : o.sshKeyPath ≠ "") :
    validateOrganization o st = statCheck o.sshKeyPath st := by
  have hcond : ¬(o.name ≠ "default" ∧ validOrgName o.name = false) := by
    rintro ⟨h1, h2⟩
    rcases hname with h | h
    · exact h1 h
    · rw [h] at h2
      exact absurd h2 (by simp)
  rw [validateOrganization, if_neg hne, if_neg hcond, if_neg hkey]

/-- Claim C5 counterexample: for a fully valid organization (valid name,
non-empty key path), a stat failure that is not a not-found failure makes
`Organization.Validate` return nil: the error is silently swallowed
rather than propagated. -/
theorem validate_swallows_stat_error_counterexample :
    validOrgName "acme" = true ∧
    validateOrganization ⟨"acme", "/home/u/.ssh/ka", false⟩
      StatResult.otherError = none := by
  constructor
  · decide
  · rfl

/-- Claim C5 (amended): for every organization with a valid name and a
non-empty key path, if stat on the key path fails with an error other than
not-found, `Organization.Validate` returns nil: the stat failure is
silently ignored rather than propagated (only the found-with-wrong-mode
and not-found outcomes produce errors). -/
theorem validate_ignores_other_stat_errors (o : Organization)
    (hne : o.name ≠ "")
    (hname : o.name = "default" ∨ validOrgName o.name = true)
    (hkey : o.sshKeyPath ≠ "") :
    validateOrganization o StatResult.otherError = none :=
  validateOrganization_reduces o StatResult.otherError hne hname hkey

theorem validate_ignores_other_stat_errors_witness :
    validateOrganization ⟨"widgets-co", "/home/u/.ssh/kb", true⟩
      StatResult.otherError = none :=
  validate_ignores_other_stat_errors ⟨"widgets-co", "/home/u/.ssh/kb", true⟩
    (by decide) (Or.inr (by decide)) (by decide)

/-- Claim C6: for every organization with a valid name and non-empty key
path, a key file found with any permission mode other than 0600 (such as
0644) fails with the insecure-permissions error (wrapping
`os.ErrPermission`); a key file found with mode exactly 0600 passes; a
missing key file fails with the distinct not-found error (wrapping
`os.ErrNotExist`); and the two error kinds are distinguishable. -/
theorem validate_key_file_classification (o : Organization) (perm : Nat)
    (hne : o.name ≠ "")
    (hname : o.name = "default" ∨ validOrgName o.name = true)
    (hkey : o.sshKeyPath ≠ "") :
    (perm ≠ 0o600 →
      validateOrganization o (StatResult.found perm)
        = some (DomainError.insecureKeyPermissions o.sshKeyPath perm))
    ∧ validateOrganization o (StatResult.found 0o600) = none
    ∧ validateOrganization o StatResult.notExist
        = some (DomainError.keyFileNotFound o.sshKeyPath)
    ∧ (∀ p m q, DomainError.insecureKeyPermissions p m
        ≠ DomainError.keyFileNotFound q) := by
  refine ⟨?_, ?_, ?_, ?_⟩
  · intro hperm
    rw [validateOrganization_reduces o _ hne hname hkey, statCheck,
      if_pos hperm]
  · rw [validateOrganization_reduces o _ hne hname hkey, statCheck]
    simp
  · rw [validateOrganization_reduces o _ hne hname hkey, statCheck]
  · intro p m q hcontra
    exact DomainError.noConfusion hcontra

theorem validate_key_file_classification_witness :
    validateOrganization ⟨"acme", "/home/u/.ssh/ka", false⟩
      (StatResult.found 0o644)
      = some (DomainError.insecureKeyPermissions "/home/u/.ssh/ka" 0o644)
    ∧ validateOrganization ⟨"acme", "/home/u/.ssh/ka", false⟩
      (StatResult.found 0o600) = none
    ∧ validateOrganization ⟨"acme", "/home/u/.ssh/ka", false⟩
      StatResult.notExist
      = some (DomainError.keyFileNotFound "/home/u/.ssh/ka") :=
  ⟨(validate_key_file_classification ⟨"acme", "/home/u/.ssh/ka", false⟩ 0o644
      (by decide) (Or.inr (by decide)) (by decide)).1 (by decide),
   (validate_key_file_classification ⟨"acme", "/home/u/.ssh/ka", false⟩ 0o644
      (by decide) (Or.inr (by decide)) (by decide)).2.1,
   (validate_key_file_classification ⟨"acme", "/home/u/.ssh/ka", false⟩ 0o644
      (by decide) (Or.inr (by decide)) (by decide)).2.2.1⟩

/-- Embedding of the `clone` package error values (clone.go lines 18-23)
relevant to URL parsing. -/
inductive CloneError where
  | invalidArgs
  | emptyRepoURL
  | invalidRepoURLFormat
  | orgNameNotFound
deriving DecidableEq, Repr

/-- Splits a character list at its first occurrence of `sep`, returning
the part before it (which therefore cannot contain `sep`) and the part
after it; `none` when `sep` does not occur. -/
def splitAtChar (sep : Char) : List Char → Option (List Char × List Char)
  | [] => none
  | c :: rest =>
    if c = sep then some ([], rest)
    else
      match splitAtChar sep rest with
      | none => none
      | some (a, b) => some (c :: a, b)

/-- The literal prefix `git@H:` that the parser's pattern anchors on;
`regexp.QuoteMeta` makes the host contribute only literal characters. -/
def gitPre (host : List Char) : List Char :=
  ("git@").toList ++ host ++ [':']

/-- Embedding of `parseGitSSHRepoUrl` (clone.go lines 91-101).  The Go
function matches the anchored pattern `^git@H:([^/]+)/[^/]+(?:\.git)?$`
(the host H is inserted as a literal via `regexp.QuoteMeta`) and returns
the capture group.  Since `[^/]+` already matches any non-empty slash-free
string, the optional `(?:\.git)?` group does not change the accepted
language: the pattern accepts exactly the strings `git@H:org/repo` with
`org` and `repo` non-empty and slash-free, capturing `org`.  The embedding
decides that language directly: the URL must start with the literal prefix
`git@H:` and the remainder must split at its first slash into a non-empty
org and a non-empty slash-free repo. -/
def parseGitSSHRepoUrl (host url : List Char) :
    Except CloneError (List Char) :=
  if url.take (gitPre host).length = gitPre host then
    match splitAtChar '/' (url.drop (gitPre host).length) with
    | some (org, repo) =>
      if org ≠ [] ∧ repo ≠ [] ∧ '/' ∉ repo then Except.ok org
      else Except.error CloneError.invalidRepoURLFormat
    | none => Except.error CloneError.invalidRepoURLFormat
  else Except.error CloneError.invalidRepoURLFormat

/-- Embedding of the parse step of `CloneRepo` (clone.go lines 50-56): the
URL is parsed, a parse failure is returned as is, and a successful parse
whose organization name is empty is turned into `ErrOrgNameNotFound`. -/
def cloneRepoParseStep (host url : List Char) :
    Except CloneError (List Char) :=
  match parseGitSSHRepoUrl host url with
  | Except.error e => Except.error e
  | Except.ok org =>
    if org = [] then Except.error CloneError.orgNameNotFound
    else Except.ok org

/-- The matching relation stated by the claim: the URL is exactly
`git@H:org/repo` for some non-empty slash-free repo, with the organization
segment non-empty and slash-free. -/
def MatchesGitSSH (host url org : List Char) : Prop :=
  org ≠ [] ∧ '/' ∉ org ∧
    ∃ repo, repo ≠ [] ∧ '/' ∉ repo ∧
      url = ("git@").toList ++ host ++ ':' :: (org ++ '/' :: repo)

theorem splitAtChar_some_of (sep : Char) (a b : List Char) (ha : sep ∉ a) :
    splitAtChar sep (a ++ sep :: b) = some (a, b) := by
  induction a with
  | nil => simp [splitAtChar]
  | cons c rest ih =>
    have hc : c ≠ sep := fun h => ha (by simp [h])
    simp only [List.cons_append, splitAtChar, if_neg hc]
    rw [List.append_eq, ih fun h => ha (List.mem_cons_of_mem _ h)]

theorem splitAtChar_eq_some_imp (sep : Char) (cs a b : List Char)
    (h : splitAtChar sep cs = some (a, b)) :
    sep ∉ a ∧ cs = a ++ sep :: b := by
  induction cs generalizing a b with
  | nil => simp [splitAtChar] at h
  | cons c rest ih =>
    by_cases hc : c = sep
    · rw [splitAtChar, if_pos hc] at h
      injection h with h
      rw [Prod.mk.injEq] at h
      obtain ⟨h1, h2⟩ := h
      subst h1
      subst h2
      simp [hc]
    · rw [splitAtChar, if_neg hc] at h
      cases hr : splitAtChar sep rest with
      | none => rw [hr] at h; exact Option.noConfusion h
      | some p =>
        obtain ⟨a0, b0⟩ := p
        rw [hr] at h
        replace h : some (c :: a0, b0) = some (a, b) := h
        injection h with h
        rw [Prod.mk.injEq] at h
        obtain ⟨h1, h2⟩ := h
        subst h1
        subst h2
        obtain ⟨ihm, ihe⟩ := ih a0 b0 hr
        constructor
        · intro hmem
          rcases List.mem_cons.mp hmem with hm | hm
          · exact hc hm.symm
          · exact ihm hm
        · rw [ihe, List.cons_append]

theorem gitPre_append (host tail : List Char) :
    gitPre host ++ tail = ("git@").toList ++ host ++ ':' :: tail := by
  simp [gitPre]

theorem parseGitSSH_ok_iff (host url org : List Char) :
    parseGitSSHRepoUrl host url = Except.ok org ↔ MatchesGitSSH host url org := by
  constructor
  · intro h
    unfold parseGitSSHRepoUrl at h
    by_cases ht : url.take (gitPre host).length = gitPre host
    · rw [if_pos ht] at h
      cases hs : splitAtChar '/' (url.drop (gitPre host).length) with
      | none =>
        rw [hs] at h
        exact Except.noConfusion h
      | some p =>
        obtain ⟨a, b⟩ := p
        rw [hs] at h
        replace h : (if a ≠ [] ∧ b ≠ [] ∧ '/' ∉ b then Except.ok a
            else Except.error CloneError.invalidRepoURLFormat) = Except.ok org := h
        by_cases hc : a ≠ [] ∧ b ≠ [] ∧ '/' ∉ b
        · rw [if_pos hc] at h
          injection h with h
          subst h
          obtain ⟨h1, h2, h3⟩ := hc
          obtain ⟨hnot, hsplit⟩ := splitAtChar_eq_some_imp '/' _ a b hs
          refine ⟨h1, hnot, b, h2, h3, ?_⟩
          have hdecomp : url
              = url.take (gitPre host).length ++ url.drop (gitPre host).length :=
            (List.take_append_drop _ _).symm
          rw [hdecomp, ht, hsplit, gitPre_append]
        · rw [if_neg hc] at h
          exact Except.noConfusion h
    · rw [if_neg ht] at h
      exact Except.noConfusion h
  · rintro ⟨h1, h2, repo, h3, h4, h5⟩
    have hurl : url = gitPre host ++ (org ++ '/' :: repo) := by
      rw [h5, gitPre_append]
    unfold parseGitSSHRepoUrl
    rw [hurl, List.take_left, if_pos rfl, List.drop_left,
      splitAtChar_some_of '/' org repo h2]
    show (if org ≠ [] ∧ repo ≠ [] ∧ '/' ∉ repo then Except.ok org
        else Except.error CloneError.invalidRepoURLFormat) = Except.ok org
    rw [if_pos ⟨h1, h3, h4⟩]

theorem parse_ok_or_invalid (host url : List Char) :
    parseGitSSHRepoUrl host url = Except.error CloneError.invalidRepoURLFormat
    ∨ ∃ org, parseGitSSHRepoUrl host url = Except.ok org := by
  unfold parseGitSSHRepoUrl
  by_cases ht : url.take (gitPre host).length = gitPre host
  · rw [if_pos ht]
    cases hs : splitAtChar '/' (url.drop (gitPre host).length) with
    | none =>
      exact Or.inl rfl
    | some p =>
      obtain ⟨a, b⟩ := p
      show (if a ≠ [] ∧ b ≠ [] ∧ '/' ∉ b then Except.ok a
          else Except.error CloneError.invalidRepoURLFormat)
            = Except.error CloneError.invalidRepoURLFormat
        ∨ ∃ org, (if a ≠ [] ∧ b ≠ [] ∧ '/' ∉ b then Except.ok a
          else Except.error CloneError.invalidRepoURLFormat) = Except.ok org
      by_cases hc : a ≠ [] ∧ b ≠ [] ∧ '/' ∉ b
      · exact Or.inr ⟨a, by rw [if_pos hc]⟩
      · exact Or.inl (by rw [if_neg hc])
  · rw [if_neg ht]
    exact Or.inl rfl

/-- Claim C7: `parseGitSSHRepoUrl` returns the organization segment exactly
when the URL matches `git@H:org/repo` (org and repo non-empty and
slash-free, the optional `.git` suffix being absorbed by the repo
segment), and fails with `InvalidRepoURLFormat` in every other case; the
host is a literal part of the pattern, its characters never acting as
wildcards, since this holds for every host string. -/
theorem parseGitSSHRepoUrl_spec (host url : List Char) :
    (∀ org, parseGitSSHRepoUrl host url = Except.ok org
      ↔ MatchesGitSSH host url org)
    ∧ (parseGitSSHRepoUrl host url
        = Except.error CloneError.invalidRepoURLFormat
      ∨ ∃ org, parseGitSSHRepoUrl host url = Except.ok org) :=
  ⟨fun org => parseGitSSH_ok_iff host url org, parse_ok_or_invalid host url⟩

theorem parse_empty_org (host repo : List Char) :
    parseGitSSHRepoUrl host (gitPre host ++ '/' :: repo)
      = Except.error CloneError.invalidRepoURLFormat := by
  unfold parseGitSSHRepoUrl
  rw [List.take_left, if_pos rfl, List.drop_left]
  have hs : splitAtChar '/' ('/' :: repo) = some ([], repo) := by
    simp [splitAtChar]
  rw [hs]
  show (if ([] : List Char) ≠ [] ∧ repo ≠ [] ∧ '/' ∉ repo
      then Except.ok ([] : List Char)
      else Except.error CloneError.invalidRepoURLFormat)
    = Except.error CloneError.invalidRepoURLFormat
  rw [if_neg (by simp)]

/-- Claim C8 counterexample: the URL `git@github.com:/repo.git`, whose
organization segment is empty, makes the parse step of `CloneRepo` fail
with `InvalidRepoURLFormat`, not with the distinct `OrgNameNotFound`
error. -/
theorem cloneRepoParseStep_empty_org_counterexample :
    cloneRepoParseStep ("github.com").toList ("git@github.com:/repo.git").toList
      = Except.error CloneError.invalidRepoURLFormat
    ∧ CloneError.invalidRepoURLFormat ≠ CloneError.orgNameNotFound := by
  constructor
  · rfl
  · decide

/-- Claim C8 (amended): a URL whose organization segment is empty fails in
the parse step with `InvalidRepoURLFormat`, because the pattern requires a
non-empty organization segment; the `OrgNameNotFound` branch of
`CloneRepo` is unreachable, since no input at all makes the parse step
return that error. -/
theorem cloneRepoParseStep_empty_org (host repo : List Char) :
    cloneRepoParseStep host (gitPre host ++ '/' :: repo)
      = Except.error CloneError.invalidRepoURLFormat
    ∧ ∀ url, cloneRepoParseStep host url
        ≠ Except.error CloneError.orgNameNotFound := by
  constructor
  · rw [cloneRepoParseStep, parse_empty_org]
  · intro url h
    unfold cloneRepoParseStep at h
    cases hp : parseGitSSHRepoUrl host url with
    | error e =>
      rw [hp] at h
      replace h : (Except.error e : Except CloneError (List Char))
          = Except.error CloneError.orgNameNotFound := h
      injection h with h
      subst h
      rcases parse_ok_or_invalid host url with hinv | ⟨org, hok⟩
      · rw [hp] at hinv
        injection hinv with h2
        exact CloneError.noConfusion h2
      · rw [hp] at hok
        exact Except.noConfusion hok
    | ok org =>
      rw [hp] at h
      replace h : (if org = [] then Except.error CloneError.orgNameNotFound
          else Except.ok org) = Except.error CloneError.orgNameNotFound := h
      by_cases ho : org = []
      · exact ((parseGitSSH_ok_iff host url org).mp hp).1 ho
      · rw [if_neg ho] at h
        exact Except.noConfusion h

/-- Splits a character list on every occurrence of `sep`; splitting
rendered text on the newline character yields its lines. -/
def splitOnChar (sep : Char) : List Char → List (List Char)
  | [] => [[]]
  | c :: rest =>
    if c = sep then [] :: splitOnChar sep rest
    else
      match splitOnChar sep rest with
      | [] => [[c]]
      | l :: ls => (c :: l) :: ls

/-- The fixed fragment text rendered by `CreateSSHConfigFile`
(sshconfig.go lines 20-22): a Go raw string whose continuation lines each
carry one literal tab. -/
def sshConfigBase (host key : List Char) : List Char :=
  ("Host ").toList ++ host ++ ("\n\tUser git\n\tIdentityFile ").toList ++ key

/-- Embedding of `CreateSSHConfigFile` (sshconfig.go lines 18-37): renders
the fragment, appends the `IdentitiesOnly yes` line when the key path ends
in ".pub" (`strings.HasSuffix`), and writes the text to
`configDir/<uuid>` with permission 0600, returning that path.  The
`uuid.New().String()` call is modelled by the `uuid` argument (the source
itself isolates it in the injectable `generateUUID` variable), and
`filepath.Join` on an already clean directory path is modelled as
concatenation with one separator.  The result triple is (written path,
rendered content, permission bits of the write). -/
def createSSHConfigFile (host key dir uuid : List Char) :
    List Char × List Char × Nat :=
  let content :=
    if (".pub").toList.isSuffixOf key then
      sshConfigBase host key ++ ("\n\tIdentitiesOnly yes\n").toList
    else sshConfigBase host key
  (dir ++ '/' :: uuid, content, 0o600)

theorem splitOnChar_no_sep (sep : Char) (a : List Char) (ha : sep ∉ a) :
    splitOnChar sep a = [a] := by
  induction a with
  | nil => rfl
  | cons c rest ih =>
    have hc : c ≠ sep := fun h => ha (by simp [h])
    rw [splitOnChar, if_neg hc, ih fun h => ha (List.mem_cons_of_mem _ h)]

theorem splitOnChar_append (sep : Char) (a b : List Char) (ha : sep ∉ a) :
    splitOnChar sep (a ++ sep :: b) = a :: splitOnChar sep b := by
  induction a with
  | nil => simp [splitOnChar]
  | cons c rest ih =>
    have hc : c ≠ sep := fun h => ha (by simp [h])
    rw [List.cons_append, splitOnChar, if_neg hc,
      ih fun h => ha (List.mem_cons_of_mem _ h)]

/-- Claim C9: `CreateSSHConfigFile` renders exactly the lines
`Host <hostAlias>`, tab-indented `User git` and `IdentityFile <keyPath>`,
followed by a tab-indented `IdentitiesOnly yes` line (and the trailing
empty line of the final newline) exactly when the key path ends in
".pub"; the rendered text contains the `IdentitiesOnly yes` line iff the
key path ends in ".pub"; the file is written at `<dir>/<uuid>` with
permission 0600 and that path is returned. -/
theorem createSSHConfigFile_spec (host key dir uuid : List Char)
    (hh : '\n' ∉ host) (hk : '\n' ∉ key) :
    (createSSHConfigFile host key dir uuid).1 = dir ++ '/' :: uuid
    ∧ (createSSHConfigFile host key dir uuid).2.2 = 0o600
    ∧ splitOnChar '\n' (createSSHConfigFile host key dir uuid).2.1
        = [("Host ").toList ++ host, ("\tUser git").toList,
            ("\tIdentityFile ").toList ++ key]
          ++ (if (".pub").toList.isSuffixOf key then
                [("\tIdentitiesOnly yes").toList, ([] : List Char)]
              else [])
    ∧ (("\tIdentitiesOnly yes").toList
          ∈ splitOnChar '\n' (createSSHConfigFile host key dir uuid).2.1
        ↔ (".pub").toList.isSuffixOf key = true) := by
  have hl1 : '\n' ∉ ("Host ").toList ++ host := by
    intro hm
    rcases List.mem_append.mp hm with h | h
    · exact absurd h (by decide)
    · exact hh h
  have hl2 : '\n' ∉ ("\tUser git").toList := by decide
  have hl3 : '\n' ∉ ("\tIdentityFile ").toList ++ key := by
    intro hm
    rcases List.mem_append.mp hm with h | h
    · exact absurd h (by decide)
    · exact hk h
  have hl4 : '\n' ∉ ("\tIdentitiesOnly yes").toList := by decide
  have e1 : ("\n\tUser git\n\tIdentityFile ").toList
      = '\n' :: (("\tUser git").toList ++ '\n' :: ("\tIdentityFile ").toList) := by
    decide
  have e2 : ("\n\tIdentitiesOnly yes\n").toList
      = '\n' :: (("\tIdentitiesOnly yes").toList ++ '\n' :: ([] : List Char)) := by
    decide
  have hcontent : (createSSHConfigFile host key dir uuid).2.1
      = if (".pub").toList.isSuffixOf key then
          sshConfigBase host key ++ ("\n\tIdentitiesOnly yes\n").toList
        else sshConfigBase host key := rfl
  have hlines : splitOnChar '\n' (createSSHConfigFile host key dir uuid).2.1
      = [("Host ").toList ++ host, ("\tUser git").toList,
          ("\tIdentityFile ").toList ++ key]
        ++ (if (".pub").toList.isSuffixOf key then
              [("\tIdentitiesOnly yes").toList, ([] : List Char)]
            else []) := by
    rw [hcontent]
    by_cases hpub : (".pub").toList.isSuffixOf key = true
    · rw [if_pos hpub, if_pos hpub]
      have hshape : sshConfigBase host key ++ ("\n\tIdentitiesOnly yes\n").toList
          = (("Host ").toList ++ host)
            ++ '\n' :: (("\tUser git").toList
              ++ '\n' :: ((("\tIdentityFile ").toList ++ key)
                ++ '\n' :: (("\tIdentitiesOnly yes").toList
                  ++ '\n' :: ([] : List Char)))) := by
        rw [sshConfigBase, e1, e2]
        simp [List.append_assoc]
      rw [hshape, splitOnChar_append _ _ _ hl1, splitOnChar_append _ _ _ hl2,
        splitOnChar_append _ _ _ hl3, splitOnChar_append _ _ _ hl4]
      rfl
    · rw [if_neg hpub, if_neg hpub]
      have hshape : sshConfigBase host key
          = (("Host ").toList ++ host)
            ++ '\n' :: (("\tUser git").toList
              ++ '\n' :: (("\tIdentityFile ").toList ++ key)) := by
        rw [sshConfigBase, e1]
        simp [List.append_assoc]
      rw [hshape, splitOnChar_append _ _ _ hl1, splitOnChar_append _ _ _ hl2,
        splitOnChar_no_sep _ _ hl3]
      rfl
  have hne1 : ("\tIdentitiesOnly yes").toList ≠ ("Host ").toList ++ host := by
    intro heq
    rw [show ("Host ").toList = 'H' :: ("ost ").toList from by decide,
      show ("\tIdentitiesOnly yes").toList
        = '\t' :: ("IdentitiesOnly yes").toList from by decide,
      List.cons_append] at heq
    exact absurd (List.head_eq_of_cons_eq heq) (by decide)
  have hne2 : ("\tIdentitiesOnly yes").toList ≠ ("\tUser git").toList := by
    decide
  have hne3 : ("\tIdentitiesOnly yes").toList
      ≠ ("\tIdentityFile ").toList ++ key := by
    intro heq
    have h8 : (("\tIdentitiesOnly yes").toList)[8]?
        = (("\tIdentityFile ").toList ++ key)[8]? := by rw [heq]
    rw [List.getElem?_append, if_pos (by decide)] at h8
    exact absurd h8 (by decide)
  refine ⟨rfl, rfl, hlines, ?_⟩
  rw [hlines]
  by_cases hpub : (".pub").toList.isSuffixOf key = true
  · simp [hpub]
  · simp [hpub, hne1, hne2, hne3]

theorem createSSHConfigFile_spec_witness :
    (("\tIdentitiesOnly yes").toList
      ∈ splitOnChar '\n' (createSSHConfigFile ("github.com").toList
          ("/home/u/.ssh/key.pub").toList ("/tmp/d").toList
          ("u1").toList).2.1)
    ∧ ¬(("\tIdentitiesOnly yes").toList
      ∈ splitOnChar '\n' (createSSHConfigFile ("github.com").toList
          ("/home/u/.ssh/key").toList ("/tmp/d").toList
          ("u1").toList).2.1)
    ∧ (createSSHConfigFile ("github.com").toList
        ("/home/u/.ssh/key.pub").toList ("/tmp/d").toList
        ("u1").toList).2.2 = 0o600 :=
  ⟨(createSSHConfigFile_spec ("github.com").toList
      ("/home/u/.ssh/key.pub").toList ("/tmp/d").toList ("u1").toList
      (by decide) (by decide)).2.2.2.mpr (by decide),
   fun hmem => by
     have h := (createSSHConfigFile_spec ("github.com").toList
       ("/home/u/.ssh/key").toList ("/tmp/d").toList ("u1").toList
       (by decide) (by decide)).2.2.2.mp hmem
     exact absurd h (by decide),
   (createSSHConfigFile_spec ("github.com").toList
      ("/home/u/.ssh/key.pub").toList ("/tmp/d").toList ("u1").toList
      (by decide) (by decide)).2.1⟩

end Ghc
